import Mathlib

/-!
Verification development for the simulation core of `bevy-hacker-wars`
(`src/main.rs`), a local multiplayer arena shooter built on an ECS frame
loop.  Each per-frame system of the source is embedded as a Lean function
over the state it reads and writes:

* device registry (`gamepad_connections`), death handling (`kill_player`),
  Mode-button handling (`handle_buttons`) and the config-change reaction
  (`respond_to_player_config_change`) act on players whose numeric fields
  are modelled as rationals (the source performs only field assignments and
  comparisons there, so `ℚ` is an exact model of the `f32` values involved);
* the collision pass (`check_for_collisions`) acts on a list of entities
  with axis-aligned bounding boxes over `ℚ`;
* movement (`player_movement`), rotation (`player_rotation`) and bullet
  creation (`create_bullets`) compute square roots and trigonometric
  functions, so they are embedded over `ℝ`.

Deferred ECS commands (`despawn`, component insert/remove) are applied at
the end of the embedded system, exactly as bevy flushes `Commands` after a
system runs; in-place `Mut<_>` component writes take effect immediately.
Randomness (`thread_rng().gen_range(..)`) is modelled by passing the drawn
values as explicit parameters.
-/

namespace HackerWars

/-- The `PlayerConfig` resource (src/main.rs lines 170-177). -/
structure PlayerConfig where
  speed : ℚ
  turningSpeed : ℚ
  shootingDelay : ℚ
  scale : ℚ
  invincible : Bool
  startingHealth : ℤ
deriving DecidableEq

/-- The `BulletConfig` resource (src/main.rs lines 181-185). -/
structure BulletConfig where
  speed : ℚ
  collide : Bool
  scale : ℚ
deriving DecidableEq

/-- The `PlayerConfig` value inserted at startup (src/main.rs lines 55-62). -/
def initialPlayerConfig : PlayerConfig :=
  { speed := 500, turningSpeed := 13, shootingDelay := 1/10, scale := 50,
    invincible := false, startingHealth := 10 }

/-- A player entity as seen by the registry/lifecycle systems: the
components spawned in `gamepad_connections` (src/main.rs lines 269-298),
with `eid` standing for the bevy `Entity` id.  `timerElapsed` and
`timerDuration` model the `Shooter` repeating timer. -/
structure PlayerQ where
  eid : ℕ
  id : ℕ
  x : ℚ
  y : ℚ
  rot : ℚ
  sx : ℚ
  sy : ℚ
  health : ℤ
  collider : Bool
  alive : Bool
  timerElapsed : ℚ
  timerDuration : ℚ
deriving DecidableEq

/-- `f32::MAX`, the coordinate a dead player is parked at
(src/main.rs lines 522-523). -/
def f32Max : ℚ := 340282346638528859811704183484516925440

/-- The bundle spawned for a freshly connected gamepad
(src/main.rs lines 269-298): random translation and rotation (the drawn
values are the `rx ry rrot` parameters), scale `cfg.scale`, a `Collider`,
`ID(gamepad.id)`, health `cfg.startingHealth`, a repeating shooter timer
seeded at `cfg.shootingDelay`, and `Alive`. -/
def spawnPlayer (cfg : PlayerConfig) (g : ℕ) (rx ry rrot : ℚ) (eid : ℕ) : PlayerQ :=
  { eid := eid, id := g, x := rx, y := ry, rot := rrot,
    sx := cfg.scale, sy := cfg.scale, health := cfg.startingHealth,
    collider := true, alive := true,
    timerElapsed := 0, timerDuration := cfg.shootingDelay }

/-- A `GamepadConnectionEvent` payload: `connected` carries the gamepad
info name together with the random draws used for the spawn position and
rotation. -/
inductive Connection where
  | connected (name : String) (rx ry rrot : ℚ)
  | disconnected
deriving DecidableEq

/-- A `GamepadConnectionEvent` (gamepad id plus connection payload). -/
structure ConnEvent where
  gamepad : ℕ
  connection : Connection
deriving DecidableEq

/-- Event loop of `gamepad_connections` (src/main.rs lines 256-309).
The `players` query is the snapshot taken when the system starts; spawns
and despawns go through `Commands` and are applied after the system, so
the loop accumulates them separately.  On a disconnect event the source
despawns the first player whose `ID` matches and then `return`s from the
whole system, abandoning the remaining events. -/
def gamepadConnectionsAux (cfg : PlayerConfig) (snapshot : List PlayerQ) :
    List ConnEvent → List PlayerQ → List ℕ → ℕ → List PlayerQ × List ℕ × ℕ
  | [], spawned, despawns, n => (spawned, despawns, n)
  | ev :: rest, spawned, despawns, n =>
    match ev.connection with
    | .connected _ rx ry rrot =>
      gamepadConnectionsAux cfg snapshot rest
        (spawned ++ [spawnPlayer cfg ev.gamepad rx ry rrot n]) despawns (n + 1)
    | .disconnected =>
      match snapshot.find? (fun p => p.id == ev.gamepad) with
      | some p => (spawned, p.eid :: despawns, n)
      | none => gamepadConnectionsAux cfg snapshot rest spawned despawns n

/-- The `gamepad_connections` system (src/main.rs lines 247-310): drain
the connection events, then flush the accumulated commands.  `n` is the
next fresh entity id; the result pairs the post-flush player list with the
updated counter. -/
def gamepadConnections (cfg : PlayerConfig) (events : List ConnEvent)
    (players : List PlayerQ) (n : ℕ) : List PlayerQ × ℕ :=
  match gamepadConnectionsAux cfg players events [] [] n with
  | (spawned, despawns, n') =>
    (players.filter (fun p => !despawns.contains p.eid) ++ spawned, n')

/-- Effect of one `PlayerDied` event on one player in `kill_player`
(src/main.rs lines 518-525): an alive player with the matching `ID` loses
`Alive` and is parked at `(f32::MAX, f32::MAX)`.  The `Collider`
component is not touched. -/
def killFun (evid : ℕ) (p : PlayerQ) : PlayerQ :=
  if p.alive && p.id == evid then { p with alive := false, x := f32Max, y := f32Max }
  else p

/-- The `kill_player` system (src/main.rs lines 513-527), iterating the
drained `PlayerDied` events.  (The `Alive` removal is deferred in the
source, but the effect is idempotent, so applying it immediately yields
the same final state.) -/
def killPlayer : List ℕ → List PlayerQ → List PlayerQ
  | [], ps => ps
  | evid :: rest, ps => killPlayer rest (ps.map (killFun evid))

/-- Gamepad button kinds distinguished by `handle_buttons`: the `Mode`
button versus every other `GamepadButtonType`. -/
inductive GButton where
  | mode
  | other
deriving DecidableEq

/-- A `GamepadEvent` as read by `handle_buttons`: a button event carries
the gamepad id, button type and analog value; connection and axis events
are ignored by that system. -/
inductive GEvent where
  | button (gamepad : ℕ) (buttonType : GButton) (value : ℚ)
  | connection
  | axis
deriving DecidableEq

/-- Inner player loop of `handle_buttons` (src/main.rs lines 542-562) for
a Mode press on gamepad `g`: scan for the first player whose `ID` matches;
if it is alive, send `PlayerDied` for its id; otherwise insert `Alive`,
move it to the freshly drawn `(rx, ry)` and reset health.  Returns `none`
when no player matches (the event loop then continues). -/
def pressMode (cfg : PlayerConfig) (rx ry : ℚ) (g : ℕ) :
    List PlayerQ → Option (List PlayerQ × List ℕ)
  | [] => none
  | p :: rest =>
    if p.id = g then
      if p.alive then some (p :: rest, [p.id])
      else
        some ({ p with alive := true, x := rx, y := ry, health := cfg.startingHealth } :: rest, [])
    else (pressMode cfg rx ry g rest).map (fun r => (p :: r.1, r.2))

/-- The `handle_buttons` system (src/main.rs lines 529-570).  Only one
respawn can happen per run (the source `return`s as soon as a player
matched), so a single random draw `(rx, ry)` suffices.  The result is the
updated player list together with the `PlayerDied` events sent. -/
def handleButtons (cfg : PlayerConfig) (rx ry : ℚ) :
    List GEvent → List PlayerQ → List PlayerQ × List ℕ
  | [], ps => (ps, [])
  | .button g bt v :: rest, ps =>
    if bt = GButton.mode ∧ v = 1 then
      match pressMode cfg rx ry g ps with
      | some r => r
      | none => handleButtons cfg rx ry rest ps
    else handleButtons cfg rx ry rest ps
  | .connection :: rest, ps => handleButtons cfg rx ry rest ps
  | .axis :: rest, ps => handleButtons cfg rx ry rest ps

/-- Per-player effect of `respond_to_player_config_change`
(src/main.rs lines 137-152): set the shooter timer duration to the new
shooting delay, the transform scale to the new player scale, the
`Collider` presence to the negation of `invincible`, and reset health.
Translation and rotation are untouched. -/
def applyConfigToPlayer (cfg : PlayerConfig) (p : PlayerQ) : PlayerQ :=
  { p with timerDuration := cfg.shootingDelay,
           sx := cfg.scale, sy := cfg.scale,
           collider := !cfg.invincible,
           health := cfg.startingHealth }

/-- The `respond_to_player_config_change` system (src/main.rs lines
130-154): for each drained `PlayerConfigChanged` event, apply the update
to every player. -/
def respondToPlayerConfigChange (cfg : PlayerConfig) :
    List Unit → List PlayerQ → List PlayerQ
  | [], ps => ps
  | _ :: rest, ps => respondToPlayerConfigChange cfg rest (ps.map (applyConfigToPlayer cfg))

/-! ### The collision pass (`check_for_collisions`, src/main.rs lines 468-511) -/

/-- A 2D transform restricted to the fields the collision pass reads:
translation `(x, y)` and scale `(sx, sy)` (`scale.truncate()`). -/
structure Tf where
  x : ℚ
  y : ℚ
  sx : ℚ
  sy : ℚ
deriving DecidableEq

/-- An entity as seen by the two queries of `check_for_collisions`:
`bullet_query` selects those with `isBullet`, `hit_query` those with
`collider`; both read `ID` and `Transform`, and `hit_query` additionally
borrows the optional `Health`. -/
structure Entity where
  eid : ℕ
  id : ℕ
  tf : Tf
  health : Option ℤ
  isBullet : Bool
  collider : Bool
deriving DecidableEq

/-- `bevy::sprite::collide_aabb::collide` (overlap part): boxes centred at
the translations with full extents given by the sizes; the boxes collide
when they strictly overlap on both axes. -/
def collideAabb (a b : Tf) : Bool :=
  decide (a.x - a.sx / 2 < b.x + b.sx / 2) && decide (a.x + a.sx / 2 > b.x - b.sx / 2) &&
  decide (a.y - a.sy / 2 < b.y + b.sy / 2) && decide (a.y + a.sy / 2 > b.y - b.sy / 2)

/-- The hit test of src/main.rs lines 486-491: `collide` applied to the
hit entity's transform first, then the bullet's. -/
def overlaps (hit bullet : Entity) : Bool :=
  collideAabb hit.tf bullet.tf

/-- Write `some h` into the `Health` of the entity with id `eid`
(the in-place `Mut<Health>` write of line 497). -/
def setHealth (eid : ℕ) (h : ℤ) (w : List Entity) : List Entity :=
  w.map (fun e => if e.eid = eid then { e with health := some h } else e)

/-- Read the `Health` of the entity with id `eid`. -/
def healthOf (eid : ℕ) (w : List Entity) : Option ℤ :=
  (w.find? (fun e => e.eid == eid)).bind (fun e => e.health)

/-- State threaded through the collision pass: the live entities (health
values are mutated in place), the `bullets_despawned` set (entity ids
handed to `Commands::despawn`, still visible to the queries until the
flush), and the `PlayerDied` ids sent so far. -/
structure PassState where
  world : List Entity
  despawned : List ℕ
  events : List ℕ
deriving DecidableEq

/-- The inner loop of `check_for_collisions` (src/main.rs lines 479-509)
for one bullet `b`, scanning the hit query in order: skip entities without
`Collider`, entities already in the despawn set, and entities sharing the
bullet's `ID`; on the first AABB overlap, despawn the bullet and either
decrement the target's health (sending `PlayerDied` exactly when the new
value is `0`) or, for a healthless target, despawn it too — then `break`. -/
def hitLoop (b : Entity) : List Entity → PassState → PassState
  | [], s => s
  | t :: rest, s =>
    if !t.collider then hitLoop b rest s
    else if s.despawned.contains t.eid then hitLoop b rest s
    else if t.id == b.id then hitLoop b rest s
    else if overlaps t b then
      match t.health with
      | some h =>
        { world := setHealth t.eid (h - 1) s.world,
          despawned := b.eid :: s.despawned,
          events := if h - 1 = 0 then s.events ++ [t.id] else s.events }
      | none =>
        { world := s.world,
          despawned := t.eid :: b.eid :: s.despawned,
          events := s.events }
    else hitLoop b rest s

/-- The first eligible overlapping target for bullet `b` in hit-query
order: collidable, not yet despawned, not sharing `b`'s owner id, and
overlapping `b`. -/
def firstHit (b : Entity) (despawned : List ℕ) (l : List Entity) : Option Entity :=
  l.find? (fun t =>
    t.collider && !despawned.contains t.eid && !(t.id == b.id) && overlaps t b)

/-- The single collision outcome applied to the first hit target `t` of
bullet `b`: the bullet is consumed; a health-bearing target loses one
health point (with `PlayerDied` sent at exactly zero), a healthless
target is despawned as well. -/
def applyHit (b t : Entity) (s : PassState) : PassState :=
  match t.health with
  | some h =>
    { world := setHealth t.eid (h - 1) s.world,
      despawned := b.eid :: s.despawned,
      events := if h - 1 = 0 then s.events ++ [t.id] else s.events }
  | none =>
    { world := s.world,
      despawned := t.eid :: b.eid :: s.despawned,
      events := s.events }

/-- The outer loop of `check_for_collisions` (src/main.rs lines 474-510):
process each bullet in query order, skipping bullets already consumed
earlier in the pass. -/
def runBullets : List Entity → PassState → PassState
  | [], s => s
  | b :: rest, s =>
    if s.despawned.contains b.eid then runBullets rest s
    else runBullets rest (hitLoop b s.world s)

/-- The whole `check_for_collisions` system on an entity list: both
queries draw from the same world, `bullet_query` filtering on the
`Bullet` component. -/
def checkForCollisions (world : List Entity) : PassState :=
  runBullets (world.filter (fun e => e.isBullet)) { world := world, despawned := [], events := [] }

/-! ### Movement, rotation and bullet creation (over `ℝ`) -/

/-- Componentwise clamp, as in `glam`'s `Vec3::clamp`:
`self.max(min).min(max)`. -/
noncomputable def clampR (x lo hi : ℝ) : ℝ := min (max x lo) hi

/-- One translation step of `player_movement` (src/main.rs lines
333-348) for a player at `(px, py)` reading left-stick axes `(ax, ay)`:
the movement amount is `speed * dt`; the axis vector is renormalized to
unit length when its distance from the origin exceeds `1`; the
displacement is added and the result clamped per axis to half the window
extent. -/
noncomputable def movementStep (speed dt px py ax ay w h : ℝ) : ℝ × ℝ :=
  let m := speed * dt
  let len := Real.sqrt (ax ^ 2 + ay ^ 2)
  let vx := if 1 < len then ax / len else ax
  let vy := if 1 < len then ay / len else ay
  (clampR (px + m * vx) (-(w / 2)) (w / 2), clampR (py + m * vy) (-(h / 2)) (h / 2))

/-- A player entity as seen by the movement/rotation/shooting systems,
with the heading (`Transform::rotation` about the `z` axis) carried as a
single planar angle. -/
structure MPlayer where
  id : ℕ
  alive : Bool
  x : ℝ
  y : ℝ
  rot : ℝ
  timerElapsed : ℝ
  timerDuration : ℝ

/-- The `player_movement` system (src/main.rs lines 312-351): for each
connected gamepad, every alive player bound to it whose two left-stick
axes are present steps by `movementStep`.  `axes g` returns the pair of
`Axis<GamepadAxis>` lookups for gamepad `g`. -/
noncomputable def playerMovementSys (speed dt w h : ℝ) (axes : ℕ → Option ℝ × Option ℝ) :
    List ℕ → List MPlayer → List MPlayer
  | [], ps => ps
  | g :: rest, ps =>
    playerMovementSys speed dt w h axes rest (ps.map (fun p =>
      if p.alive && p.id == g then
        match axes g with
        | (some ax, some ay) =>
          { p with x := (movementStep speed dt p.x p.y ax ay w h).1,
                   y := (movementStep speed dt p.x p.y ax ay w h).2 }
        | _ => p
      else p))

/-- The representative of an angle in `(-π, π]`: rotations about `z`
differing by a multiple of `2π` are the same rotation, and quaternion
`angle_between`/`slerp` act along the corresponding shortest arc. -/
noncomputable def wrapAngle (x : ℝ) : ℝ :=
  x - 2 * Real.pi * (⌈(x - Real.pi) / (2 * Real.pi)⌉ : ℤ)

/-- `Quat::angle_between` for two rotations about `z`: the absolute
shortest angular distance between the headings. -/
noncomputable def headingDist (a b : ℝ) : ℝ := |wrapAngle (b - a)|

/-- `f32::signum` (sign of the perp-dot product in `angle_between`);
the `-0.0` case of IEEE signum cannot be distinguished in `ℝ` and is
mapped to `1`. -/
noncomputable def signumF (x : ℝ) : ℝ := if x < 0 then -1 else 1

/-- `glam`'s `Vec2::angle_between`:
`acos(dot / sqrt(len² * len²)) * signum(perp_dot)`. -/
noncomputable def vec2AngleBetween (vx vy wx wy : ℝ) : ℝ :=
  Real.arccos ((vx * wx + vy * wy) / Real.sqrt ((vx ^ 2 + vy ^ 2) * (wx ^ 2 + wy ^ 2))) *
    signumF (vx * wy - vy * wx)

/-- The target heading of `player_rotation` (src/main.rs line 376):
`Quat::from_rotation_z(-v.angle_between(Vec2::X) - PI / 2)`. -/
noncomputable def targetAngle (vx vy : ℝ) : ℝ :=
  -(vec2AngleBetween vx vy 1 0) - Real.pi / 2

/-- One step of `player_rotation` (src/main.rs lines 373-385) for a
player with heading `rot` reading right-stick axes `(ax, ay)`: a zero aim
vector leaves the heading unchanged; otherwise let `d` be the angular
distance to the target heading and `maxAngle = turningSpeed * dt`; if
`d > maxAngle` the heading slerps the fraction `maxAngle / d` of the way
along the shortest arc, else it snaps to the target. -/
noncomputable def rotationStep (turningSpeed dt rot ax ay : ℝ) : ℝ :=
  if ax = 0 ∧ ay = 0 then rot
  else
    let target := targetAngle ax ay
    let d := headingDist rot target
    let maxAngle := turningSpeed * dt
    if d > maxAngle then rot + (maxAngle / d) * wrapAngle (target - rot)
    else target

/-- The `player_rotation` system (src/main.rs lines 353-389): for each
connected gamepad, every alive player bound to it whose two right-stick
axes are present steps by `rotationStep`. -/
noncomputable def playerRotationSys (turningSpeed dt : ℝ) (axes : ℕ → Option ℝ × Option ℝ) :
    List ℕ → List MPlayer → List MPlayer
  | [], ps => ps
  | g :: rest, ps =>
    playerRotationSys turningSpeed dt axes rest (ps.map (fun p =>
      if p.alive && p.id == g then
        match axes g with
        | (some ax, some ay) => { p with rot := rotationStep turningSpeed dt p.rot ax ay }
        | _ => p
      else p))

/-- `Timer::tick` plus `just_finished` for a repeating timer: the elapsed
time advances by `dt`; when it reaches the duration the timer reports
finished and the elapsed time wraps modulo the duration. -/
noncomputable def tickRepeating (elapsed duration dt : ℝ) : ℝ × Bool :=
  let e := elapsed + dt
  if duration ≤ e then
    (if 0 < duration then e - duration * (⌊e / duration⌋ : ℤ) else 0, true)
  else (e, false)

/-- A bullet bundle spawned by `create_bullets` (src/main.rs lines
405-420): translation copied from the shooter, scale from the bullet
config, `ID` copied from the shooter, velocity along the shooter's
heading (the source recovers the angle via `to_axis_angle`, adds `π/2`
and applies `Vec2::from_angle(angle).rotate(Vec2::X) = (cos, sin)`), and
a `Collider` exactly when the config says bullets collide. -/
structure SpawnedBullet where
  id : ℕ
  x : ℝ
  y : ℝ
  vx : ℝ
  vy : ℝ
  sx : ℝ
  sy : ℝ
  collider : Bool

/-- Velocity of a bullet fired by a shooter with heading `rot`. -/
noncomputable def bulletVelocity (rot speed : ℝ) : ℝ × ℝ :=
  (Real.cos (rot + Real.pi / 2) * speed, Real.sin (rot + Real.pi / 2) * speed)

/-- The `create_bullets` system (src/main.rs lines 391-423): every alive
shooter ticks its repeating timer by `dt` and, when the timer just
finished, spawns one bullet at its own pose.  Dead players are not in the
query: their timers are not ticked and they spawn nothing. -/
noncomputable def createBulletsSys (dt bSpeed bScale : ℝ) (bCollide : Bool)
    (ps : List MPlayer) : List MPlayer × List SpawnedBullet :=
  (ps.map (fun p =>
      if p.alive then
        { p with timerElapsed := (tickRepeating p.timerElapsed p.timerDuration dt).1 }
      else p),
   ps.filterMap (fun p =>
      if p.alive && (tickRepeating p.timerElapsed p.timerDuration dt).2 then
        some { id := p.id, x := p.x, y := p.y,
               vx := (bulletVelocity p.rot bSpeed).1, vy := (bulletVelocity p.rot bSpeed).2,
               sx := bScale, sy := bScale, collider := bCollide }
      else none))

/-! ### Concrete inputs used by counterexamples and witnesses -/

/-- A player (gamepad 0) with one health point left, at the origin with
the default scale 50. -/
def exPlayer : Entity :=
  { eid := 0, id := 0, tf := { x := 0, y := 0, sx := 50, sy := 50 },
    health := some 1, isBullet := false, collider := true }

/-- A bullet owned by gamepad 1, overlapping `exPlayer`. -/
def exBullet1 : Entity :=
  { eid := 1, id := 1, tf := { x := 0, y := 0, sx := 10, sy := 10 },
    health := none, isBullet := true, collider := true }

/-- A second bullet owned by gamepad 1, also overlapping `exPlayer`. -/
def exBullet2 : Entity :=
  { eid := 2, id := 2, tf := { x := 0, y := 0, sx := 10, sy := 10 },
    health := none, isBullet := true, collider := true }

/-- Two enemy bullets overlapping a one-health player in the same frame. -/
def exWorld : List Entity := [exPlayer, exBullet1, exBullet2]

/-- A full-health player owned by gamepad 1 (same owner as `exOwnBullet`). -/
def exOwner : Entity :=
  { eid := 0, id := 1, tf := { x := 0, y := 0, sx := 50, sy := 50 },
    health := some 5, isBullet := false, collider := true }

/-- A bullet owned by gamepad 1, overlapping its own player `exOwner`. -/
def exOwnBullet : Entity :=
  { eid := 1, id := 1, tf := { x := 0, y := 0, sx := 10, sy := 10 },
    health := none, isBullet := true, collider := true }

/-- Pass state whose world holds only an owner and its own bullet. -/
def exOwnState : PassState :=
  { world := [exOwner, exOwnBullet], despawned := [], events := [] }

/-- Player spawned for gamepad 0 (entity id 0). -/
def cPlayerA : PlayerQ := spawnPlayer initialPlayerConfig 0 0 0 0 0

/-- Player spawned for gamepad 1 (entity id 1). -/
def cPlayerB : PlayerQ := spawnPlayer initialPlayerConfig 1 0 0 0 1

/-- Player spawned for gamepad 7 (entity id 3). -/
def cPlayerC : PlayerQ := spawnPlayer initialPlayerConfig 7 0 0 0 3

/-- Cumulative effect of a list of `PlayerDied` events on one player:
`kill_player` applies `killFun` once per drained event. -/
def killSeq (evs : List ℕ) (p : PlayerQ) : PlayerQ :=
  evs.foldl (fun q evid => killFun evid q) p

/-- Correspondence between the initial world and the world mid-pass:
every current entity matches an initial entity with the same entity id,
owner id and health presence (the pass mutates only health values). -/
def Corresp (w w' : List Entity) : Prop :=
  ∀ t' ∈ w', ∃ t ∈ w, t.eid = t'.eid ∧ t.id = t'.id ∧ t.health.isSome = t'.health.isSome

/-! ### Helper lemmas about the collision pass -/

lemma hitLoop_eq (b : Entity) (l : List Entity) (s : PassState) :
    hitLoop b l s =
      match firstHit b s.despawned l with
      | none => s
      | some t => applyHit b t s := by
  induction l with
  | nil => rfl
  | cons t rest ih =>
    by_cases h1 : t.collider = true
    · by_cases h2 : t.eid ∈ s.despawned
      · rw [show hitLoop b (t :: rest) s = hitLoop b rest s by simp [hitLoop, h1, h2], ih,
          show firstHit b s.despawned (t :: rest) = firstHit b s.despawned rest by
            simp [firstHit, List.find?_cons, h1, h2]]
      · by_cases h3 : t.id = b.id
        · rw [show hitLoop b (t :: rest) s = hitLoop b rest s by simp [hitLoop, h1, h2, h3], ih,
            show firstHit b s.despawned (t :: rest) = firstHit b s.despawned rest by
              simp [firstHit, List.find?_cons, h1, h2, h3]]
        · by_cases h4 : overlaps t b = true
          · rw [show firstHit b s.despawned (t :: rest) = some t from
              List.find?_cons_of_pos _ (by simp [h1, h2, h3, h4])]
            simp [hitLoop, h1, h2, h3, h4, applyHit]
          · rw [show hitLoop b (t :: rest) s = hitLoop b rest s by
                simp [hitLoop, h1, h2, h3, h4], ih,
              show firstHit b s.despawned (t :: rest) = firstHit b s.despawned rest by
                simp [firstHit, List.find?_cons, h1, h2, h3, h4]]
    · rw [show hitLoop b (t :: rest) s = hitLoop b rest s by simp [hitLoop, h1], ih,
        show firstHit b s.despawned (t :: rest) = firstHit b s.despawned rest by
          simp [firstHit, List.find?_cons, h1]]

lemma healthOf_cons (e : Entity) (w : List Entity) (x : ℕ) :
    healthOf x (e :: w) = if e.eid = x then e.health else healthOf x w := by
  by_cases he : e.eid = x
  · simp [healthOf, List.find?_cons, he]
  · simp [healthOf, List.find?_cons, he]

lemma setHealth_cons (y : ℕ) (v : ℤ) (e : Entity) (w : List Entity) :
    setHealth y v (e :: w) =
      (if e.eid = y then { e with health := some v } else e) :: setHealth y v w := by
  by_cases he : e.eid = y
  · simp [setHealth, he]
  · simp [setHealth, he]

lemma find?_eid_eq_of_mem_nodup {w : List Entity} {t : Entity}
    (hn : (w.map Entity.eid).Nodup) (ht : t ∈ w) :
    w.find? (fun e => e.eid == t.eid) = some t := by
  induction w with
  | nil => cases ht
  | cons a rest ih =>
    have hn' : a.eid ∉ rest.map Entity.eid ∧ (rest.map Entity.eid).Nodup := by
      rw [List.map_cons, List.nodup_cons] at hn; exact hn
    rcases List.mem_cons.mp ht with rfl | hmem
    · exact List.find?_cons_of_pos _ (by simp)
    · by_cases ha : a.eid = t.eid
      · exact absurd (ha ▸ List.mem_map_of_mem Entity.eid hmem) hn'.1
      · rw [List.find?_cons_of_neg _ (by simpa using ha)]
        exact ih hn'.2 hmem

lemma healthOf_setHealth_ne {x y : ℕ} (v : ℤ) (w : List Entity) (h : x ≠ y) :
    healthOf x (setHealth y v w) = healthOf x w := by
  induction w with
  | nil => rfl
  | cons e rest ih =>
    rw [setHealth_cons]
    by_cases hey : e.eid = y
    · have hex : e.eid ≠ x := by rw [hey]; exact fun hyx => h hyx.symm
      rw [if_pos hey, healthOf_cons, healthOf_cons]
      have hex' : ({ e with health := some v } : Entity).eid ≠ x := hex
      rw [if_neg hex', if_neg hex]
      exact ih
    · rw [if_neg hey, healthOf_cons, healthOf_cons]
      by_cases hex : e.eid = x
      · rw [if_pos hex, if_pos hex]
      · rw [if_neg hex, if_neg hex]
        exact ih

lemma healthOf_setHealth_self {y : ℕ} (v : ℤ) (w : List Entity)
    (hmem : ∃ t ∈ w, t.eid = y) :
    healthOf y (setHealth y v w) = some v := by
  induction w with
  | nil => simp at hmem
  | cons e rest ih =>
    rw [setHealth_cons]
    by_cases hey : e.eid = y
    · rw [if_pos hey, healthOf_cons]
      have hey' : ({ e with health := some v } : Entity).eid = y := hey
      rw [if_pos hey']
    · obtain ⟨t, ht, hty⟩ := hmem
      rcases List.mem_cons.mp ht with rfl | hmem'
      · exact absurd hty hey
      · rw [if_neg hey, healthOf_cons, if_neg hey]
        exact ih ⟨t, hmem', hty⟩

lemma setHealth_map_eid (y : ℕ) (v : ℤ) (w : List Entity) :
    (setHealth y v w).map Entity.eid = w.map Entity.eid := by
  induction w with
  | nil => rfl
  | cons e rest ih =>
    rw [setHealth_cons]
    by_cases hey : e.eid = y
    · rw [if_pos hey, List.map_cons, List.map_cons, ih]
    · rw [if_neg hey, List.map_cons, List.map_cons, ih]

lemma corresp_refl (w : List Entity) : Corresp w w :=
  fun t' h => ⟨t', h, rfl, rfl, rfl⟩

lemma corresp_setHealth {w w' : List Entity} (hc : Corresp w w')
    (hn : (w'.map Entity.eid).Nodup) {t : Entity} (ht : t ∈ w') (v : ℤ)
    (hts : t.health.isSome = true) :
    Corresp w (setHealth t.eid v w') := by
  intro u' hu'
  obtain ⟨u, hu, rfl⟩ := List.mem_map.mp hu'
  by_cases hue : u.eid = t.eid
  · have hut : u = t := List.inj_on_of_nodup_map hn hu ht hue
    subst hut
    obtain ⟨t0, ht0, heq, hiq, hsq⟩ := hc u hu
    exact ⟨t0, ht0, by simp [hue, heq], by simp [hue, hiq], by simp [hue, hsq, hts]⟩
  · obtain ⟨t0, ht0, heq, hiq, hsq⟩ := hc u hu
    exact ⟨t0, ht0, by simp [hue, heq], by simp [hue, hiq], by simp [hue, hsq]⟩

lemma hitLoop_invariant (world : List Entity) (e : Entity) (h : ℤ)
    (hn : (world.map Entity.eid).Nodup)
    (hpair : ∀ a ∈ world, ∀ c ∈ world, a.health.isSome = true → c.health.isSome = true →
      a.id = c.id → a.eid = c.eid)
    (he : e ∈ world) (hh : e.health = some h) (b : Entity) (s : PassState)
    (hmap : s.world.map Entity.eid = world.map Entity.eid) (hc : Corresp world s.world)
    (hinv : ∃ h', healthOf e.eid s.world = some h' ∧ h' ≤ h ∧
      s.events.count e.id = (if 1 ≤ h ∧ h' ≤ 0 then 1 else 0)) :
    (hitLoop b s.world s).world.map Entity.eid = world.map Entity.eid ∧
    Corresp world (hitLoop b s.world s).world ∧
    (∃ h', healthOf e.eid (hitLoop b s.world s).world = some h' ∧ h' ≤ h ∧
      (hitLoop b s.world s).events.count e.id = (if 1 ≤ h ∧ h' ≤ 0 then 1 else 0)) := by
  have hnw : (s.world.map Entity.eid).Nodup := by rw [hmap]; exact hn
  rw [hitLoop_eq]
  cases hf : firstHit b s.despawned s.world with
  | none => exact ⟨hmap, hc, hinv⟩
  | some t =>
    have hf' : s.world.find? (fun t => t.collider && !s.despawned.contains t.eid &&
        !(t.id == b.id) && overlaps t b) = some t := hf
    have tmem : t ∈ s.world := List.mem_of_find?_eq_some hf'
    obtain ⟨h', hh', hle, hcount⟩ := hinv
    cases th : t.health with
    | none =>
      refine ⟨?_, ?_, h', ?_, hle, ?_⟩
      · show (applyHit b t s).world.map Entity.eid = world.map Entity.eid
        simp only [applyHit, th]
        exact hmap
      · show Corresp world (applyHit b t s).world
        simp only [applyHit, th]
        exact hc
      · show healthOf e.eid (applyHit b t s).world = some h'
        simp only [applyHit, th]
        exact hh'
      · show (applyHit b t s).events.count e.id = _
        simp only [applyHit, th]
        exact hcount
    | some ht =>
      obtain ⟨t0, ht0, hteid, htid, hts⟩ := hc t tmem
      have hts' : t0.health.isSome = true := by rw [hts, th]; rfl
      by_cases hte : t.eid = e.eid
      · have ht0e : t0 = e := by
          refine List.inj_on_of_nodup_map hn ht0 he ?_
          rw [hteid, hte]
        have htide : t.id = e.id := by rw [← htid, ht0e]
        have hfind : s.world.find? (fun a => a.eid == e.eid) = some t := by
          rw [← hte]
          exact find?_eid_eq_of_mem_nodup hnw tmem
        have hcur : healthOf e.eid s.world = some ht := by
          rw [healthOf, hfind]
          simp [th]
        have hh'ht : h' = ht := by
          rw [hh'] at hcur
          exact Option.some.inj hcur
        refine ⟨?_, ?_, ht - 1, ?_, by omega, ?_⟩
        · show (applyHit b t s).world.map Entity.eid = world.map Entity.eid
          simp only [applyHit, th]
          rw [setHealth_map_eid]
          exact hmap
        · show Corresp world (applyHit b t s).world
          simp only [applyHit, th]
          exact corresp_setHealth hc hnw tmem (ht - 1) (by rw [th]; rfl)
        · show healthOf e.eid (applyHit b t s).world = some (ht - 1)
          simp only [applyHit, th]
          rw [← hte]
          exact healthOf_setHealth_self (ht - 1) s.world ⟨t, tmem, rfl⟩
        · show (applyHit b t s).events.count e.id = _
          simp only [applyHit, th]
          by_cases hz : ht - 1 = 0
          · rw [if_pos hz, List.count_append, hcount]
            have h1 : ht = 1 := by omega
            have hcond : ¬ (1 ≤ h ∧ h' ≤ 0) := by omega
            have hcond' : 1 ≤ h ∧ ht - 1 ≤ 0 := by constructor <;> omega
            rw [if_neg hcond, if_pos hcond', htide]
            simp
          · rw [if_neg hz, hcount, hh'ht]
            exact if_congr (by constructor <;> intro hx <;> exact ⟨hx.1, by omega⟩) rfl rfl
      · have htide : t.id ≠ e.id := by
          intro hx
          exact hte (hteid ▸ hpair t0 ht0 e he hts' (by rw [hh]; rfl) (htid.trans hx))
        refine ⟨?_, ?_, h', ?_, hle, ?_⟩
        · show (applyHit b t s).world.map Entity.eid = world.map Entity.eid
          simp only [applyHit, th]
          rw [setHealth_map_eid]
          exact hmap
        · show Corresp world (applyHit b t s).world
          simp only [applyHit, th]
          exact corresp_setHealth hc hnw tmem (ht - 1) (by rw [th]; rfl)
        · show healthOf e.eid (applyHit b t s).world = some h'
          simp only [applyHit, th]
          rw [healthOf_setHealth_ne _ _ (fun hx => hte hx.symm)]
          exact hh'
        · show (applyHit b t s).events.count e.id = _
          simp only [applyHit, th]
          by_cases hz : ht - 1 = 0
          · rw [if_pos hz, List.count_append, hcount]
            have hne2 : ¬ (e.id = t.id) := fun hx => htide hx.symm
            simp [List.count_cons, hne2]
          · rw [if_neg hz, hcount]

lemma pass_invariant (world : List Entity) (e : Entity) (h : ℤ)
    (hn : (world.map Entity.eid).Nodup)
    (hpair : ∀ a ∈ world, ∀ c ∈ world, a.health.isSome = true → c.health.isSome = true →
      a.id = c.id → a.eid = c.eid)
    (he : e ∈ world) (hh : e.health = some h) :
    ∀ (bs : List Entity) (s : PassState),
      s.world.map Entity.eid = world.map Entity.eid → Corresp world s.world →
      (∃ h', healthOf e.eid s.world = some h' ∧ h' ≤ h ∧
        s.events.count e.id = (if 1 ≤ h ∧ h' ≤ 0 then 1 else 0)) →
      (runBullets bs s).world.map Entity.eid = world.map Entity.eid ∧
      Corresp world (runBullets bs s).world ∧
      (∃ h', healthOf e.eid (runBullets bs s).world = some h' ∧ h' ≤ h ∧
        (runBullets bs s).events.count e.id = (if 1 ≤ h ∧ h' ≤ 0 then 1 else 0))
  | [], s, hmap, hc, hinv => ⟨hmap, hc, hinv⟩
  | b :: rest, s, hmap, hc, hinv => by
    rw [show runBullets (b :: rest) s =
          (if s.despawned.contains b.eid then runBullets rest s
           else runBullets rest (hitLoop b s.world s)) from rfl]
    by_cases hd : s.despawned.contains b.eid = true
    · rw [if_pos hd]
      exact pass_invariant world e h hn hpair he hh rest s hmap hc hinv
    · rw [if_neg hd]
      obtain ⟨hmap', hc', hinv'⟩ :=
        hitLoop_invariant world e h hn hpair he hh b s hmap hc hinv
      exact pass_invariant world e h hn hpair he hh rest (hitLoop b s.world s) hmap' hc' hinv'

/-! ### Helper lemmas about the lifecycle systems -/

lemma respond_nonempty (cfg : PlayerConfig) (evs : List Unit) (ps : List PlayerQ)
    (h : evs ≠ []) :
    respondToPlayerConfigChange cfg evs ps = ps.map (applyConfigToPlayer cfg) := by
  induction evs generalizing ps with
  | nil => exact absurd rfl h
  | cons u rest ih =>
    cases rest with
    | nil => rfl
    | cons v rest2 =>
      rw [show respondToPlayerConfigChange cfg (u :: v :: rest2) ps =
            respondToPlayerConfigChange cfg (v :: rest2) (ps.map (applyConfigToPlayer cfg)) from
            rfl,
          ih (ps.map (applyConfigToPlayer cfg)) (by simp), List.map_map]
      refine List.map_congr_left ?_
      intro a _
      rfl

lemma pressMode_found (cfg : PlayerConfig) (rx ry : ℚ) (g : ℕ) :
    ∀ (l₁ l₂ : List PlayerQ) (p : PlayerQ), (∀ q ∈ l₁, q.id ≠ g) → p.id = g →
      pressMode cfg rx ry g (l₁ ++ p :: l₂) =
        (if p.alive then some (l₁ ++ p :: l₂, [p.id])
         else some
           (l₁ ++ { p with alive := true, x := rx, y := ry, health := cfg.startingHealth } :: l₂,
            []))
  | [], l₂, p, _, hp => by
    by_cases ha : p.alive = true <;> simp [pressMode, hp, ha]
  | q :: l₁, l₂, p, hfirst, hp => by
    have hq : q.id ≠ g := hfirst q (List.mem_cons_self q l₁)
    have ih :=
      pressMode_found cfg rx ry g l₁ l₂ p (fun a ha => hfirst a (List.mem_cons_of_mem q ha)) hp
    by_cases ha : p.alive = true <;>
      simp only [ha, if_true, if_false, Bool.false_eq_true] at ih <;>
      simp [pressMode, hq, ih, ha]

lemma killFun_dead (evid : ℕ) (p : PlayerQ) (h : p.alive = false) : killFun evid p = p := by
  simp [killFun, h]

lemma killSeq_dead (evs : List ℕ) (p : PlayerQ) (h : p.alive = false) : killSeq evs p = p := by
  induction evs with
  | nil => rfl
  | cons ev rest ih => rw [killSeq, List.foldl_cons, killFun_dead ev p h]; exact ih

lemma killSeq_cons (ev : ℕ) (evs : List ℕ) (p : PlayerQ) :
    killSeq (ev :: evs) p = killSeq evs (killFun ev p) := rfl

lemma killSeq_fields (evs : List ℕ) (p : PlayerQ) :
    (killSeq evs p).collider = p.collider ∧ (killSeq evs p).id = p.id ∧
    (killSeq evs p).health = p.health := by
  induction evs generalizing p with
  | nil => exact ⟨rfl, rfl, rfl⟩
  | cons ev rest ih =>
    rw [killSeq_cons]
    have hf : (killFun ev p).collider = p.collider ∧ (killFun ev p).id = p.id ∧
        (killFun ev p).health = p.health := by
      unfold killFun; split <;> exact ⟨rfl, rfl, rfl⟩
    obtain ⟨h1, h2, h3⟩ := ih (killFun ev p)
    exact ⟨h1.trans hf.1, h2.trans hf.2.1, h3.trans hf.2.2⟩

lemma killSeq_kills (evs : List ℕ) (p : PlayerQ) (ha : p.alive = true) (hm : p.id ∈ evs) :
    (killSeq evs p).alive = false ∧ (killSeq evs p).x = f32Max ∧
    (killSeq evs p).y = f32Max := by
  induction evs generalizing p with
  | nil => cases hm
  | cons ev rest ih =>
    rw [killSeq_cons]
    by_cases hpe : p.id = ev
    · have hkill : killFun ev p = { p with alive := false, x := f32Max, y := f32Max } := by
        simp [killFun, ha, hpe]
      rw [hkill, killSeq_dead _ _ rfl]
      exact ⟨rfl, rfl, rfl⟩
    · have hid : killFun ev p = p := by simp [killFun, hpe]
      rw [hid]
      exact ih p ha (by rcases List.mem_cons.mp hm with h | h; exact absurd h hpe; exact h)

lemma killPlayer_get? (evs : List ℕ) (ps : List PlayerQ) (i : ℕ) :
    (killPlayer evs ps)[i]? = (ps[i]?).map (killSeq evs) := by
  induction evs generalizing ps with
  | nil => cases h : ps[i]? <;> simp [killPlayer, killSeq, h]
  | cons ev rest ih =>
    rw [show killPlayer (ev :: rest) ps = killPlayer rest (ps.map (killFun ev)) from rfl,
      ih (ps.map (killFun ev)), List.getElem?_map]
    cases h : ps[i]? <;> simp [killSeq_cons, h]

lemma playerMovementSys_get?_dead (speed dt w h : ℝ) (axes : ℕ → Option ℝ × Option ℝ) :
    ∀ (gps : List ℕ) (ps : List MPlayer) (i : ℕ) (p : MPlayer),
      ps[i]? = some p → p.alive = false →
      (playerMovementSys speed dt w h axes gps ps)[i]? = some p
  | [], _, _, _, hp, _ => hp
  | g :: rest, ps, i, p, hp, hd => by
    have hstep : playerMovementSys speed dt w h axes (g :: rest) ps =
        playerMovementSys speed dt w h axes rest (ps.map (fun p =>
          if p.alive && p.id == g then
            match axes g with
            | (some ax, some ay) =>
              { p with x := (movementStep speed dt p.x p.y ax ay w h).1,
                       y := (movementStep speed dt p.x p.y ax ay w h).2 }
            | _ => p
          else p)) := rfl
    rw [hstep]
    refine playerMovementSys_get?_dead speed dt w h axes rest _ i p ?_ hd
    rw [List.getElem?_map, hp]
    simp [hd]

lemma playerRotationSys_get?_dead (ts dt : ℝ) (axes : ℕ → Option ℝ × Option ℝ) :
    ∀ (gps : List ℕ) (ps : List MPlayer) (i : ℕ) (p : MPlayer),
      ps[i]? = some p → p.alive = false →
      (playerRotationSys ts dt axes gps ps)[i]? = some p
  | [], _, _, _, hp, _ => hp
  | g :: rest, ps, i, p, hp, hd => by
    have hstep : playerRotationSys ts dt axes (g :: rest) ps =
        playerRotationSys ts dt axes rest (ps.map (fun p =>
          if p.alive && p.id == g then
            match axes g with
            | (some ax, some ay) => { p with rot := rotationStep ts dt p.rot ax ay }
            | _ => p
          else p)) := rfl
    rw [hstep]
    refine playerRotationSys_get?_dead ts dt axes rest _ i p ?_ hd
    rw [List.getElem?_map, hp]
    simp [hd]

lemma abs_clampR_le {t w : ℝ} (hw : 0 ≤ w) : |clampR t (-(w / 2)) (w / 2)| ≤ w / 2 := by
  rw [clampR, abs_le]
  constructor
  · exact le_min (le_max_right _ _) (by linarith)
  · exact min_le_right _ _

/-! ### Helper lemmas about angle wrapping and the rotation step -/

lemma wrapAngle_le_pi (x : ℝ) : wrapAngle x ≤ Real.pi := by
  have h2π : (0 : ℝ) ≤ 2 * Real.pi := by positivity
  have hq : 2 * Real.pi * ((x - Real.pi) / (2 * Real.pi)) = x - Real.pi := by
    field_simp
  have h1 : 2 * Real.pi * ((x - Real.pi) / (2 * Real.pi)) ≤
      2 * Real.pi * ((⌈(x - Real.pi) / (2 * Real.pi)⌉ : ℤ) : ℝ) :=
    mul_le_mul_of_nonneg_left (Int.le_ceil _) h2π
  rw [hq] at h1
  rw [wrapAngle]
  linarith

lemma neg_pi_lt_wrapAngle (x : ℝ) : -Real.pi < wrapAngle x := by
  have h2π : (0 : ℝ) < 2 * Real.pi := by positivity
  have h3 : ((⌈(x - Real.pi) / (2 * Real.pi)⌉ : ℤ) : ℝ) <
      (x - Real.pi) / (2 * Real.pi) + 1 := Int.ceil_lt_add_one _
  have h1 : 2 * Real.pi * ((⌈(x - Real.pi) / (2 * Real.pi)⌉ : ℤ) : ℝ) <
      2 * Real.pi * ((x - Real.pi) / (2 * Real.pi) + 1) :=
    (mul_lt_mul_left h2π).mpr h3
  have hq : 2 * Real.pi * ((x - Real.pi) / (2 * Real.pi) + 1) = x - Real.pi + 2 * Real.pi := by
    field_simp
  rw [hq] at h1
  rw [wrapAngle]
  linarith

lemma wrapAngle_eq_self {x : ℝ} (h1 : -Real.pi < x) (h2 : x ≤ Real.pi) : wrapAngle x = x := by
  have h2π : (0 : ℝ) < 2 * Real.pi := by positivity
  have hup : (⌈(x - Real.pi) / (2 * Real.pi)⌉ : ℤ) ≤ 0 := by
    rw [Int.ceil_le]
    push_cast
    exact div_nonpos_of_nonpos_of_nonneg (by linarith) (by positivity)
  have hdown : (-1 : ℤ) < ⌈(x - Real.pi) / (2 * Real.pi)⌉ := by
    rw [Int.lt_ceil]
    push_cast
    have hm1 : (-(2 * Real.pi)) / (2 * Real.pi) = -1 := by
      field_simp
    rw [← hm1]
    exact (div_lt_div_iff_of_pos_right h2π).mpr (by linarith)
  have hc0 : (⌈(x - Real.pi) / (2 * Real.pi)⌉ : ℤ) = 0 := by omega
  rw [wrapAngle, hc0]
  push_cast
  ring

lemma wrapAngle_add_int (x : ℝ) (k : ℤ) :
    wrapAngle (x + 2 * Real.pi * k) = wrapAngle x := by
  have hπ : Real.pi ≠ 0 := Real.pi_ne_zero
  have harg : (x + 2 * Real.pi * k - Real.pi) / (2 * Real.pi) =
      (x - Real.pi) / (2 * Real.pi) + k := by
    field_simp
    ring
  rw [wrapAngle, harg, Int.ceil_add_int, wrapAngle]
  push_cast
  ring

lemma rotation_core (m rot φ : ℝ) (hm : 0 ≤ m) :
    headingDist rot
        (if headingDist rot φ > m then
          rot + (m / headingDist rot φ) * wrapAngle (φ - rot)
         else φ) ≤ m ∧
    headingDist
        (if headingDist rot φ > m then
          rot + (m / headingDist rot φ) * wrapAngle (φ - rot)
         else φ) φ =
      headingDist rot φ - min m (headingDist rot φ) := by
  have hπ : (0 : ℝ) < Real.pi := Real.pi_pos
  set W : ℝ := wrapAngle (φ - rot) with hW
  set D : ℝ := headingDist rot φ with hD
  have hW_le : W ≤ Real.pi := by rw [hW]; exact wrapAngle_le_pi _
  have hW_gt : -Real.pi < W := by rw [hW]; exact neg_pi_lt_wrapAngle _
  have hd_def : D = |W| := by rw [hD, hW]; rfl
  have hD_nonneg : 0 ≤ D := by rw [hd_def]; exact abs_nonneg W
  have hd_le_pi : D ≤ Real.pi := by
    rw [hd_def, abs_le]
    exact ⟨by linarith, hW_le⟩
  by_cases hdm : D > m
  · rw [if_pos hdm]
    have hdpos : 0 < D := lt_of_le_of_lt hm hdm
    have hmD : 0 ≤ m / D := div_nonneg hm hD_nonneg
    have habs : |m / D * W| = m := by
      rw [abs_mul, abs_div, abs_of_nonneg hm, abs_of_nonneg hD_nonneg, ← hd_def,
        div_mul_cancel₀ m hdpos.ne']
    have hfac : 0 ≤ 1 - m / D := by
      rw [sub_nonneg, div_le_one hdpos]
      exact le_of_lt hdm
    constructor
    · show |wrapAngle ((rot + m / D * W) - rot)| ≤ m
      rw [show (rot + m / D * W) - rot = m / D * W from by ring]
      have hlt : |m / D * W| < Real.pi := by
        rw [habs]
        linarith
      obtain ⟨hl, hr⟩ := abs_lt.mp hlt
      rw [wrapAngle_eq_self hl (le_of_lt hr), habs]
    · show |wrapAngle (φ - (rot + m / D * W))| = D - min m D
      have hdecomp : W = (φ - rot) -
          2 * Real.pi * ((⌈(φ - rot - Real.pi) / (2 * Real.pi)⌉ : ℤ) : ℝ) := by
        rw [hW]; rfl
      rw [show φ - (rot + m / D * W) = (W - m / D * W) +
            2 * Real.pi * ((⌈(φ - rot - Real.pi) / (2 * Real.pi)⌉ : ℤ) : ℝ) from by
          linarith [hdecomp],
        wrapAngle_add_int]
      have hvabs : |W - m / D * W| = D - m := by
        rw [show W - m / D * W = W * (1 - m / D) from by ring, abs_mul,
          abs_of_nonneg hfac, ← hd_def, mul_sub, mul_one, mul_comm D (m / D),
          div_mul_cancel₀ m hdpos.ne']
      have hvle : W - m / D * W ≤ Real.pi := by
        rcases le_or_lt 0 W with hw | hw
        · have h1 : 0 ≤ m / D * W := mul_nonneg hmD hw
          linarith
        · have h1 : 0 ≤ (1 - m / D) * (-W) := mul_nonneg hfac (by linarith)
          nlinarith [h1]
      have hvgt : -Real.pi < W - m / D * W := by
        rcases le_or_lt 0 W with hw | hw
        · have h1 : 0 ≤ (1 - m / D) * W := mul_nonneg hfac hw
          nlinarith [h1]
        · have h1 : 0 ≤ m / D * (-W) := mul_nonneg hmD (by linarith)
          nlinarith [h1]
      rw [wrapAngle_eq_self hvgt hvle, hvabs, min_eq_left (le_of_lt hdm)]
  · rw [if_neg hdm]
    push_neg at hdm
    refine ⟨hdm, ?_⟩
    show |wrapAngle (φ - φ)| = D - min m D
    rw [sub_self, wrapAngle_eq_self (by linarith) (by linarith), abs_zero,
      min_eq_right hdm]
    ring

/-! ### Claim theorems -/

/-- C6: in every collision pass, at most one collision outcome is applied
to a given projectile: the inner loop of `check_for_collisions` scans the
hit query in order, skips already-consumed entities and entities sharing
the projectile's owner id, and on the first overlap applies exactly one
outcome (`applyHit`) and tests no further targets — first-hit-wins. -/
theorem first_hit_wins (b : Entity) (l : List Entity) (s : PassState) :
    hitLoop b l s =
      match firstHit b s.despawned l with
      | none => s
      | some t => applyHit b t s :=
  hitLoop_eq b l s

/-- C5: owner immunity.  For a projectile `b` and any entity `e` sharing
`b`'s owner id, one inner-loop pass for `b` never changes `e`'s health,
never despawns `e`, and consumes `b` only on account of a target with a
different owner id — regardless of geometric overlap. -/
theorem owner_immunity (b : Entity) (l : List Entity) (s : PassState) (e : Entity)
    (hn : (l.map Entity.eid).Nodup) (he : e ∈ l) (hid : e.id = b.id) (hne : e.eid ≠ b.eid) :
    healthOf e.eid (hitLoop b l s).world = healthOf e.eid s.world ∧
    (e.eid ∈ (hitLoop b l s).despawned → e.eid ∈ s.despawned) ∧
    (b.eid ∈ (hitLoop b l s).despawned → b.eid ∈ s.despawned ∨
      ∃ t, firstHit b s.despawned l = some t ∧ t.id ≠ b.id ∧ overlaps t b = true) := by
  rw [hitLoop_eq]
  cases hf : firstHit b s.despawned l with
  | none => exact ⟨rfl, fun h => h, fun h => Or.inl h⟩
  | some t =>
    have hf' : l.find? (fun t => t.collider && !s.despawned.contains t.eid &&
        !(t.id == b.id) && overlaps t b) = some t := hf
    have hmem : t ∈ l := List.mem_of_find?_eq_some hf'
    have hp := List.find?_some hf'
    simp only [Bool.and_eq_true, Bool.not_eq_true', beq_eq_false_iff_ne] at hp
    have tid_ne : t.id ≠ b.id := hp.1.2
    have hov : overlaps t b = true := hp.2
    have teid_ne : t.eid ≠ e.eid := by
      intro hh
      exact tid_ne ((List.inj_on_of_nodup_map hn hmem he hh) ▸ hid)
    cases th : t.health with
    | some hh =>
      refine ⟨?_, ?_, ?_⟩
      · show healthOf e.eid (applyHit b t s).world = healthOf e.eid s.world
        simp only [applyHit, th]
        exact healthOf_setHealth_ne (hh - 1) s.world (Ne.symm teid_ne)
      · show e.eid ∈ (applyHit b t s).despawned → e.eid ∈ s.despawned
        simp only [applyHit, th, List.mem_cons]
        rintro (h | h)
        · exact absurd h hne
        · exact h
      · intro _
        exact Or.inr ⟨t, rfl, tid_ne, hov⟩
    | none =>
      refine ⟨?_, ?_, ?_⟩
      · show healthOf e.eid (applyHit b t s).world = healthOf e.eid s.world
        simp only [applyHit, th]
      · show e.eid ∈ (applyHit b t s).despawned → e.eid ∈ s.despawned
        simp only [applyHit, th, List.mem_cons]
        rintro (h | h | h)
        · exact absurd h (fun hh => teid_ne hh.symm)
        · exact absurd h hne
        · exact h
      · intro _
        exact Or.inr ⟨t, rfl, tid_ne, hov⟩

/-- Witness for C5: a bullet overlapping its own player produces no
health change, no despawn of the player, and is not consumed. -/
theorem owner_immunity_witness :
    (([exOwner, exOwnBullet].map Entity.eid).Nodup ∧ exOwner ∈ [exOwner, exOwnBullet] ∧
      exOwner.id = exOwnBullet.id ∧ exOwner.eid ≠ exOwnBullet.eid) ∧
    (healthOf exOwner.eid (hitLoop exOwnBullet [exOwner, exOwnBullet] exOwnState).world =
        healthOf exOwner.eid exOwnState.world ∧
      (exOwner.eid ∈ (hitLoop exOwnBullet [exOwner, exOwnBullet] exOwnState).despawned →
        exOwner.eid ∈ exOwnState.despawned) ∧
      (exOwnBullet.eid ∈ (hitLoop exOwnBullet [exOwner, exOwnBullet] exOwnState).despawned →
        exOwnBullet.eid ∈ exOwnState.despawned ∨
        ∃ t, firstHit exOwnBullet exOwnState.despawned [exOwner, exOwnBullet] = some t ∧
          t.id ≠ exOwnBullet.id ∧ overlaps t exOwnBullet = true)) :=
  ⟨⟨by simp [exOwner, exOwnBullet], List.mem_cons_self _ _, rfl, by simp [exOwner, exOwnBullet]⟩,
    owner_immunity exOwnBullet [exOwner, exOwnBullet] exOwnState exOwner
      (by simp [exOwner, exOwnBullet]) (List.mem_cons_self _ _) rfl
      (by simp [exOwner, exOwnBullet])⟩

/-- C1 counterexample: with two enemy bullets overlapping a one-health
player in the same frame, `check_for_collisions` drives the player's
health to `-1`, refuting the invariant that current health is never
negative. -/
theorem health_goes_negative_counterexample :
    healthOf 0 (checkForCollisions exWorld).world = some (-1) ∧ (-1 : ℤ) < 0 := by
  refine ⟨?_, by norm_num⟩
  norm_num [checkForCollisions, exWorld, runBullets, hitLoop, exPlayer, exBullet1, exBullet2,
    overlaps, collideAabb, setHealth, healthOf, List.filter, List.find?]

/-- C2: with two disconnect events in the same frame, each matching a
distinct player, `gamepad_connections` despawns only the player of the
first event and returns, leaving the second player alive even though its
device disconnected — the early `return` skips the remaining events. -/
theorem disconnect_skips_second_event :
    gamepadConnections initialPlayerConfig
      [{ gamepad := 0, connection := Connection.disconnected },
       { gamepad := 1, connection := Connection.disconnected }] [cPlayerA, cPlayerB] 2 =
      ([cPlayerB], 2) := by
  simp [gamepadConnections, gamepadConnectionsAux, cPlayerA, cPlayerB, spawnPlayer,
    initialPlayerConfig, List.find?, List.filter]

/-- C3 counterexample: `kill_player` removes `Alive` and parks the player
at `(f32::MAX, f32::MAX)` but leaves the `Collider` component in place,
refuting the part of the claim that says the death transition clears the
collidable flag. -/
theorem kill_player_keeps_collider :
    (killPlayer [7] [cPlayerC]).map (fun q => (q.alive, q.collider)) = [(false, true)] := by
  simp [killPlayer, killFun, cPlayerC, spawnPlayer, initialPlayerConfig]

/-- C4 counterexample: two connect events for the same device id in one
frame create two player entities with that id — the handler performs no
duplicate check, refuting idempotence of a second connect. -/
theorem duplicate_connect_creates_second_player :
    ((gamepadConnections initialPlayerConfig
        [{ gamepad := 0, connection := Connection.connected "pad" 1 2 3 },
         { gamepad := 0, connection := Connection.connected "pad" 4 5 6 }] [] 0).1.countP
      (fun p => p.id == 0)) = 2 := by
  simp [gamepadConnections, gamepadConnectionsAux, spawnPlayer, initialPlayerConfig,
    List.countP_cons]

/-- C4 amended: a connect event unconditionally spawns one new player
entity with the connecting device id, regardless of the players that
already exist — so a duplicate connect adds a second entity instead of
being idempotent. -/
theorem connect_event_always_spawns (cfg : PlayerConfig) (nm : String) (g : ℕ)
    (rx ry rrot : ℚ) (ps : List PlayerQ) (n : ℕ) :
    ((gamepadConnections cfg [{ gamepad := g, connection := Connection.connected nm rx ry rrot }]
        ps n).1.countP (fun p => p.id == g)) =
      (ps.countP (fun p => p.id == g)) + 1 := by
  simp [gamepadConnections, gamepadConnectionsAux, List.countP_append, spawnPlayer,
    List.countP_cons]

/-- C7: for every player processed by a movement step, the resulting
position lies within plus-or-minus half the window extent on both axes:
the displacement `speed * dt * v` (with `v` renormalized to unit length
when its magnitude exceeds one) is added and the sum is clamped per axis,
so a player can never leave the field via movement. -/
theorem movement_stays_in_bounds (speed dt px py ax ay w h : ℝ)
    (hw : 0 ≤ w) (hh : 0 ≤ h) :
    |(movementStep speed dt px py ax ay w h).1| ≤ w / 2 ∧
    |(movementStep speed dt px py ax ay w h).2| ≤ h / 2 := by
  unfold movementStep
  exact ⟨abs_clampR_le hw, abs_clampR_le hh⟩

/-- Witness for C7 at the startup window resolution `1500 × 1000`,
full-right stick, one 16 ms frame. -/
theorem movement_stays_in_bounds_witness :
    (0 : ℝ) ≤ 1500 ∧ (0 : ℝ) ≤ 1000 ∧
    (|(movementStep 500 (16 / 1000) 0 0 1 0 1500 1000).1| ≤ 1500 / 2 ∧
     |(movementStep 500 (16 / 1000) 0 0 1 0 1500 1000).2| ≤ 1000 / 2) :=
  ⟨by norm_num, by norm_num,
    movement_stays_in_bounds 500 (16 / 1000) 0 0 1 0 1500 1000 (by norm_num) (by norm_num)⟩

/-- C9: on every configuration-change notification, every existing player
gets its shooter-timer interval set to the new shooting delay, its visual
scale set to the new player scale, its collidable flag set to the negation
of `invincible`, and its health reset to the new starting health, while
translation and rotation stay unchanged — also for players mid-game. -/
theorem config_change_resets_players (cfg : PlayerConfig) (evs : List Unit)
    (ps : List PlayerQ) (hne : evs ≠ []) :
    List.Forall₂ (fun p q =>
      q.timerDuration = cfg.shootingDelay ∧ q.sx = cfg.scale ∧ q.sy = cfg.scale ∧
      q.collider = !cfg.invincible ∧ q.health = cfg.startingHealth ∧
      q.x = p.x ∧ q.y = p.y ∧ q.rot = p.rot)
      ps (respondToPlayerConfigChange cfg evs ps) := by
  rw [respond_nonempty cfg evs ps hne]
  induction ps with
  | nil => exact List.Forall₂.nil
  | cons p rest ih => exact List.Forall₂.cons ⟨rfl, rfl, rfl, rfl, rfl, rfl, rfl, rfl⟩ ih

/-- Witness for C9: one config-change event applied to one player. -/
theorem config_change_resets_players_witness :
    ([()] ≠ ([] : List Unit)) ∧
    List.Forall₂ (fun p q =>
      q.timerDuration = initialPlayerConfig.shootingDelay ∧
      q.sx = initialPlayerConfig.scale ∧ q.sy = initialPlayerConfig.scale ∧
      q.collider = !initialPlayerConfig.invincible ∧
      q.health = initialPlayerConfig.startingHealth ∧
      q.x = p.x ∧ q.y = p.y ∧ q.rot = p.rot)
      [cPlayerA] (respondToPlayerConfigChange initialPlayerConfig [()] [cPlayerA]) :=
  ⟨by simp,
    config_change_resets_players initialPlayerConfig [()] [cPlayerA] (by simp)⟩

/-- C10: when a Mode press (value `1`) arrives for a gamepad that matches
a player, `handle_buttons` applies the alive/dead toggle to the first
matching player only (death event if alive; respawn with random position
and reset health if dead) and then returns, so every remaining event of
that frame is left unprocessed. -/
theorem mode_button_first_press_only (cfg : PlayerConfig) (rx ry : ℚ) (g : ℕ) (v : ℚ)
    (rest : List GEvent) (l₁ l₂ : List PlayerQ) (p : PlayerQ)
    (hv : v = 1) (hfirst : ∀ q ∈ l₁, q.id ≠ g) (hp : p.id = g) :
    handleButtons cfg rx ry (GEvent.button g GButton.mode v :: rest) (l₁ ++ p :: l₂) =
      handleButtons cfg rx ry [GEvent.button g GButton.mode v] (l₁ ++ p :: l₂) ∧
    handleButtons cfg rx ry (GEvent.button g GButton.mode v :: rest) (l₁ ++ p :: l₂) =
      (if p.alive then (l₁ ++ p :: l₂, [p.id])
       else
         (l₁ ++ { p with alive := true, x := rx, y := ry, health := cfg.startingHealth } :: l₂,
          [])) := by
  subst hv
  have hpm := pressMode_found cfg rx ry g l₁ l₂ p hfirst hp
  by_cases ha : p.alive = true
  · rw [if_pos ha] at hpm
    rw [if_pos ha]
    constructor <;> simp [handleButtons, hpm]
  · rw [if_neg ha] at hpm
    rw [if_neg ha]
    constructor <;> simp [handleButtons, hpm]

/-- Witness for C10: two Mode presses for gamepad 7 in one frame, one
matching player — the toggle is applied once and the second press is
ignored. -/
theorem mode_button_first_press_only_witness :
    ((1 : ℚ) = 1 ∧ (∀ q ∈ ([] : List PlayerQ), q.id ≠ 7) ∧ cPlayerC.id = 7) ∧
    (handleButtons initialPlayerConfig 3 4
        (GEvent.button 7 GButton.mode 1 :: [GEvent.button 7 GButton.mode 1])
        ([] ++ cPlayerC :: []) =
      handleButtons initialPlayerConfig 3 4 [GEvent.button 7 GButton.mode 1]
        ([] ++ cPlayerC :: []) ∧
     handleButtons initialPlayerConfig 3 4
        (GEvent.button 7 GButton.mode 1 :: [GEvent.button 7 GButton.mode 1])
        ([] ++ cPlayerC :: []) =
      (if cPlayerC.alive then ([] ++ cPlayerC :: [], [cPlayerC.id])
       else
         ([] ++ { cPlayerC with alive := true, x := 3, y := 4, health := initialPlayerConfig.startingHealth } :: [],
          []))) :=
  ⟨⟨rfl, by simp, rfl⟩,
    mode_button_first_press_only initialPlayerConfig 3 4 7 1
      [GEvent.button 7 GButton.mode 1] [] [] cPlayerC rfl (by simp) rfl⟩

/-- C3 amended: the death transition removes `Alive` and parks the player
at `(f32::MAX, f32::MAX)` but does not clear the collidable flag; and no
movement, rotation, or bullet-creation step affects a dead player — those
systems filter on `Alive`, and every spawned bullet comes from an alive
shooter. -/
theorem dead_players_inert :
    (∀ (evs : List ℕ) (ps : List PlayerQ) (i : ℕ) (p : PlayerQ), ps[i]? = some p →
      ∃ q, (killPlayer evs ps)[i]? = some q ∧ q.collider = p.collider ∧ q.id = p.id ∧
        q.health = p.health ∧
        (p.alive = true → p.id ∈ evs →
          q.alive = false ∧ q.x = f32Max ∧ q.y = f32Max)) ∧
    (∀ (speed dt w h : ℝ) (axes : ℕ → Option ℝ × Option ℝ) (gps : List ℕ)
        (ps : List MPlayer) (i : ℕ) (p : MPlayer), ps[i]? = some p → p.alive = false →
      (playerMovementSys speed dt w h axes gps ps)[i]? = some p) ∧
    (∀ (ts dt : ℝ) (axes : ℕ → Option ℝ × Option ℝ) (gps : List ℕ)
        (ps : List MPlayer) (i : ℕ) (p : MPlayer), ps[i]? = some p → p.alive = false →
      (playerRotationSys ts dt axes gps ps)[i]? = some p) ∧
    (∀ (dt bSpeed bScale : ℝ) (bCollide : Bool) (ps : List MPlayer) (i : ℕ) (p : MPlayer),
      ps[i]? = some p → p.alive = false →
      (createBulletsSys dt bSpeed bScale bCollide ps).1[i]? = some p) ∧
    (∀ (dt bSpeed bScale : ℝ) (bCollide : Bool) (ps : List MPlayer) (b : SpawnedBullet),
      b ∈ (createBulletsSys dt bSpeed bScale bCollide ps).2 →
      ∃ p, p ∈ ps ∧ p.alive = true ∧ b.id = p.id ∧ b.x = p.x ∧ b.y = p.y) := by
  refine ⟨?_, ?_, ?_, ?_, ?_⟩
  · intro evs ps i p hp
    refine ⟨killSeq evs p, ?_, ?_, ?_, ?_, ?_⟩
    · rw [killPlayer_get?, hp]; rfl
    · exact (killSeq_fields evs p).1
    · exact (killSeq_fields evs p).2.1
    · exact (killSeq_fields evs p).2.2
    · intro ha hm; exact killSeq_kills evs p ha hm
  · intro speed dt w h axes gps ps i p hp hd
    exact playerMovementSys_get?_dead speed dt w h axes gps ps i p hp hd
  · intro ts dt axes gps ps i p hp hd
    exact playerRotationSys_get?_dead ts dt axes gps ps i p hp hd
  · intro dt bSpeed bScale bCollide ps i p hp hd
    show (ps.map _)[i]? = some p
    rw [List.getElem?_map, hp]
    simp [hd]
  · intro dt bSpeed bScale bCollide ps b hb
    have := List.mem_filterMap.mp hb
    obtain ⟨p, hpmem, hpf⟩ := this
    by_cases ha : (p.alive && (tickRepeating p.timerElapsed p.timerDuration dt).2) = true
    · rw [if_pos ha] at hpf
      have ha' : p.alive = true ∧ (tickRepeating p.timerElapsed p.timerDuration dt).2 = true := by
        simpa using ha
      obtain rfl := Option.some.inj hpf
      exact ⟨p, hpmem, ha'.1, rfl, rfl, rfl⟩
    · rw [if_neg ha] at hpf
      cases hpf

/-- Witness for C3: a concrete dead player is untouched by the movement,
rotation and bullet systems, and a killed player keeps its collider. -/
theorem dead_players_inert_witness :
    (([⟨3, 7, 0, 0, 0, 50, 50, 10, true, true, 0, 1⟩] : List PlayerQ)[0]? =
        some ⟨3, 7, 0, 0, 0, 50, 50, 10, true, true, 0, 1⟩) ∧
    ∃ q, (killPlayer [7] [(⟨3, 7, 0, 0, 0, 50, 50, 10, true, true, 0, 1⟩ : PlayerQ)])[0]? =
        some q ∧ q.collider = true ∧ q.id = 7 ∧ q.health = 10 ∧
        (true = true → 7 ∈ [7] → q.alive = false ∧ q.x = f32Max ∧ q.y = f32Max) :=
  ⟨rfl, dead_players_inert.1 [7] [⟨3, 7, 0, 0, 0, 50, 50, 10, true, true, 0, 1⟩] 0
    ⟨3, 7, 0, 0, 0, 50, 50, 10, true, true, 0, 1⟩ rfl⟩

/-- C1 amended: health may go below zero when several projectiles hit a
player in the same frame (the decrement has no clamp), but the death
event is still raised exactly once per life: over one collision pass a
health-bearing entity's health only decreases, and — when health-bearing
entities have pairwise distinct ids — the number of `PlayerDied` events
carrying its id is at most one, and is exactly one precisely when the
initial health was at least one and the final health is at most zero
(the event fires at the decrement that reaches exactly zero). -/
theorem death_event_exactly_once (world : List Entity) (e : Entity) (h : ℤ)
    (hn : (world.map Entity.eid).Nodup)
    (hpair : ∀ a ∈ world, ∀ c ∈ world, a.health.isSome = true → c.health.isSome = true →
      a.id = c.id → a.eid = c.eid)
    (he : e ∈ world) (hh : e.health = some h) :
    ∃ h', healthOf e.eid (checkForCollisions world).world = some h' ∧ h' ≤ h ∧
      (checkForCollisions world).events.count e.id ≤ 1 ∧
      ((checkForCollisions world).events.count e.id = 1 ↔ 1 ≤ h ∧ h' ≤ 0) := by
  have hinit : healthOf e.eid world = some h := by
    rw [healthOf, find?_eid_eq_of_mem_nodup hn he]
    simp [hh]
  have hbase : (([] : List ℕ).count e.id) = (if 1 ≤ h ∧ h ≤ 0 then 1 else 0) := by
    rw [if_neg (by omega)]
    rfl
  obtain ⟨hmap, hc, h', hh', hle, hcount⟩ :=
    pass_invariant world e h hn hpair he hh (world.filter (fun e => e.isBullet))
      { world := world, despawned := [], events := [] } rfl (corresp_refl world)
      ⟨h, hinit, le_refl h, hbase⟩
  refine ⟨h', hh', hle, ?_, ?_⟩
  · rw [show (checkForCollisions world).events.count e.id =
        (if 1 ≤ h ∧ h' ≤ 0 then 1 else 0) from hcount]
    split <;> omega
  · rw [show (checkForCollisions world).events.count e.id =
        (if 1 ≤ h ∧ h' ≤ 0 then 1 else 0) from hcount]
    by_cases hcond : 1 ≤ h ∧ h' ≤ 0
    · rw [if_pos hcond]
      exact ⟨fun _ => hcond, fun _ => rfl⟩
    · rw [if_neg hcond]
      exact ⟨fun hx => absurd hx (by omega), fun hx => absurd hx hcond⟩

/-- Witness for C1: the two-bullet world, where the one-health player's
health ends at `-1` and exactly one death event with its id is sent. -/
theorem death_event_exactly_once_witness :
    ((exWorld.map Entity.eid).Nodup ∧ exPlayer ∈ exWorld ∧ exPlayer.health = some 1) ∧
    (∃ h', healthOf exPlayer.eid (checkForCollisions exWorld).world = some h' ∧ h' ≤ 1 ∧
      (checkForCollisions exWorld).events.count exPlayer.id ≤ 1 ∧
      ((checkForCollisions exWorld).events.count exPlayer.id = 1 ↔ 1 ≤ (1 : ℤ) ∧ h' ≤ 0)) :=
  ⟨⟨by simp [exWorld, exPlayer, exBullet1, exBullet2], by simp [exWorld], rfl⟩,
    death_event_exactly_once exWorld exPlayer 1
      (by simp [exWorld, exPlayer, exBullet1, exBullet2])
      (by
        simp only [exWorld, exPlayer, exBullet1, exBullet2, List.mem_cons,
          List.not_mem_nil, or_false]
        rintro a (rfl | rfl | rfl) c (rfl | rfl | rfl) ha hc hid <;> simp_all)
      (by simp [exWorld]) rfl⟩

/-- C8: for every rotation step, the heading change never exceeds
`turningSpeed * dt` in magnitude (measured as the angular distance
between the old and new heading), the interpolation toward the target
heading is monotone and never overshoots — the remaining angular distance
drops by exactly `min (turningSpeed * dt) d`, snapping to the target when
`d` is within the bound — and a zero aim vector leaves the heading
exactly unchanged. -/
theorem rotation_bounded_monotone (turningSpeed dt rot ax ay : ℝ)
    (hm : 0 ≤ turningSpeed * dt) :
    ((ax = 0 ∧ ay = 0) → rotationStep turningSpeed dt rot ax ay = rot) ∧
    headingDist rot (rotationStep turningSpeed dt rot ax ay) ≤ turningSpeed * dt ∧
    (¬ (ax = 0 ∧ ay = 0) →
      headingDist (rotationStep turningSpeed dt rot ax ay) (targetAngle ax ay) =
        headingDist rot (targetAngle ax ay) -
          min (turningSpeed * dt) (headingDist rot (targetAngle ax ay))) := by
  by_cases hz : ax = 0 ∧ ay = 0
  · have hstep : rotationStep turningSpeed dt rot ax ay = rot := by
      rw [rotationStep, if_pos hz]
    refine ⟨fun _ => hstep, ?_, fun hx => absurd hz hx⟩
    rw [hstep]
    show |wrapAngle (rot - rot)| ≤ _
    rw [sub_self,
      wrapAngle_eq_self (by linarith [Real.pi_pos]) (by linarith [Real.pi_pos]), abs_zero]
    exact hm
  · have hstep : rotationStep turningSpeed dt rot ax ay =
        (if headingDist rot (targetAngle ax ay) > turningSpeed * dt then
          rot + (turningSpeed * dt / headingDist rot (targetAngle ax ay)) *
            wrapAngle (targetAngle ax ay - rot)
         else targetAngle ax ay) := by
      rw [rotationStep, if_neg hz]
    obtain ⟨hcore1, hcore2⟩ := rotation_core (turningSpeed * dt) rot (targetAngle ax ay) hm
    exact ⟨fun hx => absurd hx hz, by rw [hstep]; exact hcore1,
      fun _ => by rw [hstep]; exact hcore2⟩

/-- Witness for C8: a zero frame delta and a zero aim vector — the
heading is unchanged and the heading change is within the zero bound. -/
theorem rotation_bounded_monotone_witness :
    (0 : ℝ) ≤ 13 * 0 ∧
    ((((0 : ℝ) = 0 ∧ (0 : ℝ) = 0) → rotationStep 13 0 1 0 0 = 1) ∧
     headingDist 1 (rotationStep 13 0 1 0 0) ≤ 13 * 0 ∧
     (¬ ((0 : ℝ) = 0 ∧ (0 : ℝ) = 0) →
       headingDist (rotationStep 13 0 1 0 0) (targetAngle 0 0) =
         headingDist 1 (targetAngle 0 0) -
           min (13 * 0) (headingDist 1 (targetAngle 0 0)))) :=
  ⟨by norm_num, rotation_bounded_monotone 13 0 1 0 0 (by norm_num)⟩

end HackerWars
